import Mathlib

/-!
Verification of the host-information collector (`chinfo.py`).

The Python source is shallowly embedded: every collector becomes a pure
function of the raw text the external commands and files would produce,
Python exceptions become `Except PyErr`, Python `None` becomes `Option`,
and the handful of regular expressions the source uses are modelled as
deterministic matchers (each one is noted next to its definition).
-/

/-! ## Python string primitives -/

/-- Python whitespace for `str.strip` / `str.split` (ASCII part). -/
def isPySpace (c : Char) : Bool :=
  c == ' ' || c == '\t' || c == '\n' || c == '\r' || c == '\x0b' || c == '\x0c'

def isPrefixOfB : List Char → List Char → Bool
  | [], _ => true
  | _ :: _, [] => false
  | a :: as, b :: bs => a == b && isPrefixOfB as bs

/-- Python `s.startswith(p)`. -/
def strStartsWith (s p : String) : Bool := isPrefixOfB p.data s.data

/-- Python `s.endswith(p)`. -/
def strEndsWith (s p : String) : Bool := isPrefixOfB p.data.reverse s.data.reverse

/-- ASCII lower-casing of one character (Python `str.lower` on the
characters the source ever compares). -/
def lowerCharAscii (c : Char) : Char :=
  if 'A' ≤ c && c ≤ 'Z' then Char.ofNat (c.toNat + 32) else c

/-- Python `s.lower()` (ASCII). -/
def pyLower (s : String) : String := String.mk (s.data.map lowerCharAscii)

/-- Python `s.strip()`. -/
def pyStrip (s : String) : String :=
  String.mk (((s.data.dropWhile isPySpace).reverse.dropWhile isPySpace).reverse)

/-- Python `s.lstrip()`. -/
def pyLStrip (s : String) : String := String.mk (s.data.dropWhile isPySpace)

/-- Python `s.rstrip(":")`: remove every trailing colon. -/
def pyRStripColon (s : String) : String :=
  String.mk ((s.data.reverse.dropWhile (fun c => c == ':')).reverse)

def splitLinesAux : List Char → List Char → List String
  | [], acc => if acc.isEmpty then [] else [String.mk acc.reverse]
  | '\r' :: '\n' :: cs, acc => String.mk acc.reverse :: splitLinesAux cs []
  | '\r' :: cs, acc => String.mk acc.reverse :: splitLinesAux cs []
  | '\n' :: cs, acc => String.mk acc.reverse :: splitLinesAux cs []
  | c :: cs, acc => splitLinesAux cs (c :: acc)

/-- Python `s.splitlines()` (`\n`, `\r\n`, `\r`; no trailing empty line). -/
def pySplitLines (s : String) : List String := splitLinesAux s.data []

def wordsAux : List Char → List Char → List String
  | [], acc => if acc.isEmpty then [] else [String.mk acc.reverse]
  | c :: cs, acc =>
    if isPySpace c then
      if acc.isEmpty then wordsAux cs [] else String.mk acc.reverse :: wordsAux cs []
    else wordsAux cs (c :: acc)

/-- Python `s.split()` with no argument: whitespace runs, empties dropped. -/
def pyWords (s : String) : List String := wordsAux s.data []

def splitCharAux (sep : Char) : List Char → List Char → List String
  | [], acc => [String.mk acc.reverse]
  | c :: cs, acc =>
    if c == sep then String.mk acc.reverse :: splitCharAux sep cs []
    else splitCharAux sep cs (c :: acc)

/-- Python `s.split(sep)` for a one-character separator (keeps empties). -/
def pySplitChar (sep : Char) (s : String) : List String := splitCharAux sep s.data []

def splitFirstAux (sep : Char) : List Char → List Char → Option (String × String)
  | [], _ => none
  | c :: cs, acc =>
    if c == sep then some (String.mk acc.reverse, String.mk cs)
    else splitFirstAux sep cs (c :: acc)

/-- Python `s.split(sep, 1)`: `some (before, after)` when `sep` occurs,
`none` when the split yields a single part. -/
def splitFirst (sep : Char) (s : String) : Option (String × String) :=
  splitFirstAux sep s.data []

/-- Python `s.split(sep)[0]`: the prefix before the first `sep` (the whole
string when `sep` is absent). -/
def takeBefore (sep : Char) (s : String) : String :=
  String.mk (s.data.takeWhile (fun c => c != sep))

def linesKeepNLAux : List Char → List Char → List String
  | [], acc => if acc.isEmpty then [] else [String.mk acc.reverse]
  | '\n' :: cs, acc => String.mk (acc.reverse ++ ['\n']) :: linesKeepNLAux cs []
  | c :: cs, acc => linesKeepNLAux cs (c :: acc)

/-- Iterating a Python text file: lines keep their trailing newline. -/
def linesKeepNL (s : String) : List String := linesKeepNLAux s.data []

def digitVal (c : Char) : Nat := c.toNat - 48

def pyIntDigits : Nat → List Char → Option Nat
  | acc, [] => some acc
  | acc, '_' :: c :: cs =>
    if c.isDigit then pyIntDigits (acc * 10 + digitVal c) cs else none
  | _, ['_'] => none
  | acc, c :: cs =>
    if c.isDigit then pyIntDigits (acc * 10 + digitVal c) cs else none

def pyIntStart : List Char → Option Nat
  | [] => none
  | c :: cs => if c.isDigit then pyIntDigits (digitVal c) cs else none

/-- Python `int(s)`: optional sign, decimal digits (underscores between
digits allowed), surrounding whitespace stripped; `none` models the
`ValueError` the interpreter raises otherwise. -/
def pyInt (s : String) : Option Int :=
  match (pyStrip s).data with
  | '+' :: rest => (pyIntStart rest).map (fun n => (n : Int))
  | '-' :: rest => (pyIntStart rest).map (fun n => -(n : Int))
  | rest => (pyIntStart rest).map (fun n => (n : Int))

/-- Python `s.isdigit()` (ASCII digits). -/
def pyIsDigit (s : String) : Bool := !s.data.isEmpty && s.data.all Char.isDigit

/-- POSIX `os.path.basename`: the text after the last `/`. -/
def pyBasename (s : String) : String :=
  String.mk ((s.data.reverse.takeWhile (fun c => c != '/')).reverse)

/-- Python `s.strip(Chr 34)`: quotes removed from both ends. -/
def pyStripQuotes (s : String) : String :=
  String.mk (((s.data.dropWhile (fun c => c == '"')).reverse.dropWhile
    (fun c => c == '"')).reverse)

def isInfixB (needle : List Char) : List Char → Bool
  | [] => isPrefixOfB needle []
  | c :: cs => isPrefixOfB needle (c :: cs) || isInfixB needle cs

/-- Python `needle in hay` on strings. -/
def strContains (hay needle : String) : Bool := isInfixB needle.data hay.data

/-! ## Regular-expression models

Each Python regex of the source is modelled by a matcher on a character
position (`List Char → Option String`, the group it captures) plus
`searchFirst`, which mirrors `re.search`'s leftmost-match rule.  For each
pattern the greedy pieces are followed by characters outside their class,
so backtracking never produces a different match and the matchers below
are exact. -/

def searchFirst (f : List Char → Option String) : List Char → Option String
  | [] => f []
  | c :: cs =>
    match f (c :: cs) with
    | some r => some r
    | none => searchFirst f cs

/-- Literal prefix: the rest of the input after `lit`, if `lit` leads. -/
def dropLit : List Char → List Char → Option (List Char)
  | [], rest => some rest
  | _ :: _, [] => none
  | a :: as, b :: bs => if a == b then dropLit as bs else none

def isWordChar (c : Char) : Bool := c.isAlpha || c.isDigit || c == '_'

def isHexDigitCI (c : Char) : Bool :=
  c.isDigit || ('a' ≤ c && c ≤ 'f') || ('A' ≤ c && c ≤ 'F')

def isHexColonCI (c : Char) : Bool := isHexDigitCI c || c == ':'

def isHexLower (c : Char) : Bool := c.isDigit || ('a' ≤ c && c ≤ 'f')

def isHexColonLower (c : Char) : Bool := isHexLower c || c == ':'

/-- Exactly `n` leading characters satisfying `p`. -/
def takeExact (n : Nat) (p : Char → Bool) (l : List Char) : Option (List Char) :=
  let t := l.take n
  if t.length == n && t.all p then some t else none

/-- The `[0-9a-f]{2}(?:-[0-9a-f]{2}){5}` alternative (IGNORECASE). -/
def matchDashMac (l : List Char) : Option (List Char) :=
  match l with
  | a :: b :: '-' :: c :: d :: '-' :: e :: f :: '-' :: g :: h :: '-' ::
      i :: j :: '-' :: k :: m :: _ =>
    if [a, b, c, d, e, f, g, h, i, j, k, m].all isHexDigitCI then
      some [a, b, '-', c, d, '-', e, f, '-', g, h, '-', i, j, '-', k, m]
    else none
  | _ => none

/-- Case-insensitive literal prefix (for a literal under `re.IGNORECASE`). -/
def dropLitCI : List Char → List Char → Option (List Char)
  | [], rest => some rest
  | _ :: _, [] => none
  | a :: as, b :: bs =>
    if lowerCharAscii a == lowerCharAscii b then dropLitCI as bs else none

/-- One position of `link/\w+ ([0-9a-f:]{17}|[0-9a-f]{2}(?:-[0-9a-f]{2}){5})`
with `re.IGNORECASE` (Linux MAC extraction). -/
def matchLinuxMacAt (l : List Char) : Option String :=
  match dropLitCI "link/".data l with
  | none => none
  | some r1 =>
    let w := r1.takeWhile isWordChar
    if w.isEmpty then none
    else
      match r1.drop w.length with
      | ' ' :: r2 =>
        match takeExact 17 isHexColonCI r2 with
        | some mac => some (String.mk mac)
        | none => (matchDashMac r2).map String.mk
      | _ => none

/-- `re.search` of the Linux MAC pattern over a whole line. -/
def linuxMacSearch (line : String) : Option String :=
  searchFirst matchLinuxMacAt line.data

def lastColonLenAux : List Char → Nat → Option Nat → Option Nat
  | [], _, best => best
  | c :: cs, i, best =>
    lastColonLenAux cs (i + 1) (if c == ':' && decide (1 ≤ i) then some i else best)

/-- `re.match` of `^(\S+):`: the group is the longest leading non-space run
that a colon follows, i.e. the run up to its last colon at index ≥ 1. -/
def bsdNameMatch (line : String) : Option String :=
  let run := line.data.takeWhile (fun c => !isPySpace c)
  match lastColonLenAux run 0 none with
  | some j => some (String.mk (run.take j))
  | none => none

/-- One position of `ether ([0-9a-f:]{17})` (case sensitive). -/
def bsdEtherAt (l : List Char) : Option String :=
  match dropLit "ether ".data l with
  | none => none
  | some r => (takeExact 17 isHexColonLower r).map String.mk

/-- `re.search(r"ether ([0-9a-f:]{17})", line)`. -/
def bsdEtherSearch (line : String) : Option String :=
  searchFirst bsdEtherAt line.data

def digitRun (l : List Char) : List Char × List Char :=
  (l.takeWhile Char.isDigit, l.dropWhile Char.isDigit)

/-- `(\d+\.\d+\.\d+\.\d+)` at one position. -/
def ipv4At (l : List Char) : Option String :=
  let p1 := digitRun l
  if p1.1.isEmpty then none
  else
    match p1.2 with
    | '.' :: r1 =>
      let p2 := digitRun r1
      if p2.1.isEmpty then none
      else
        match p2.2 with
        | '.' :: r2 =>
          let p3 := digitRun r2
          if p3.1.isEmpty then none
          else
            match p3.2 with
            | '.' :: r3 =>
              let p4 := digitRun r3
              if p4.1.isEmpty then none
              else some (String.mk (p1.1 ++ '.' :: p2.1 ++ '.' :: p3.1 ++ '.' :: p4.1))
            | _ => none
        | _ => none
    | _ => none

/-- `re.search(r"inet (\d+\.\d+\.\d+\.\d+)", line)`. -/
def bsdInetSearch (line : String) : Option String :=
  searchFirst (fun l => (dropLit "inet ".data l).bind ipv4At) line.data

/-- `re.search(r"inet6 ([0-9a-f:]+)", line)`. -/
def bsdInet6Search (line : String) : Option String :=
  searchFirst
    (fun l =>
      (dropLit "inet6 ".data l).bind fun r =>
        let run := r.takeWhile isHexColonLower
        if run.isEmpty then none else some (String.mk run))
    line.data

/-- `re.search(r"page size of (\d+) bytes", vm_output)`, as the captured
number. -/
def pageSizeSearch (s : String) : Option Nat :=
  (searchFirst
    (fun l =>
      (dropLit "page size of ".data l).bind fun r =>
        let d := digitRun r
        if d.1.isEmpty then none
        else (dropLit " bytes".data d.2).map fun _ => String.mk d.1)
    s.data).bind (fun d => pyIntStart d.data)

/-- `re.match(r"^Pages free:\s+(\d+)", line)`, as the captured number. -/
def pagesFreeMatch (line : String) : Option Nat :=
  (dropLit "Pages free:".data line.data).bind fun r =>
    let ws := r.takeWhile isPySpace
    if ws.isEmpty then none
    else
      let d := (r.drop ws.length).takeWhile Char.isDigit
      if d.isEmpty then none else pyIntStart d

/-! ## Data model -/

inductive PlatformKind
  | windows
  | linux
  | darwin
  | otherPosix
deriving DecidableEq

structure NetIf where
  name : Option String
  mac : Option String
  ipv4 : List String
  ipv6 : List String
deriving DecidableEq

def emptyNetIf : NetIf := { name := none, mac := none, ipv4 := [], ipv6 := [] }

/-- Truthiness of the Python accumulator dict: some key was set. -/
def adapterNonempty (a : NetIf) : Bool :=
  a.name.isSome || a.mac.isSome || !a.ipv4.isEmpty || !a.ipv6.isEmpty

def flushIf (res : List NetIf) (a : NetIf) : List NetIf :=
  if adapterNonempty a then res ++ [a] else res

/-! ## Network interface parsers (`parse_ip_config_windows`,
`parse_ip_config_posix`) -/

/-- Header test of the Windows parser:
`line.lstrip() == line and line.strip().endswith(":")`. -/
def isWinHeader (line : String) : Bool :=
  pyLStrip line == line && strEndsWith (pyStrip line) ":"

/-- One line of the Windows `ipconfig /all` loop. -/
def winStep (st : List NetIf × NetIf) (line : String) : List NetIf × NetIf :=
  if pyStrip line == "" then (flushIf st.1 st.2, emptyNetIf)
  else if isWinHeader line then
    (flushIf st.1 st.2, { emptyNetIf with name := some (pyRStripColon (pyStrip line)) })
  else
    match splitFirst ':' line with
    | none => st
    | some kv =>
      let key := pyStrip kv.1
      let value := pyStrip kv.2
      let kl := pyLower key
      if strContains kl "physical address" then
        (st.1,
          { st.2 with
            mac := match st.2.mac with | some m => some m | none => some value })
      else if kl == "ipv4 address" || kl == "ip address" ||
          kl == "autoconfiguration ipv4 address" then
        (st.1, { st.2 with ipv4 := st.2.ipv4 ++ [pyStrip (takeBefore '(' value)] })
      else if strContains kl "ipv6 address" then
        (st.1, { st.2 with ipv6 := st.2.ipv6 ++ [pyStrip (takeBefore '(' value)] })
      else st

/-- `parse_ip_config_windows`, as a function of the `ipconfig /all` output. -/
def parse_ip_config_windows (output : String) : List NetIf :=
  if output == "" then []
  else
    let st := (pySplitLines output).foldl winStep ([], emptyNetIf)
    flushIf st.1 st.2

/-- `iface_map.setdefault(ifname, {"name": ifname})` on the insertion-ordered
map, keeping the map's entry list. -/
def mapSetDefault (m : List (String × NetIf)) (k : String) : List (String × NetIf) :=
  if m.any (fun p => p.1 == k) then m
  else m ++ [(k, { emptyNetIf with name := some k })]

/-- In-place mutation of the entry stored under `k`. -/
def mapUpdate (m : List (String × NetIf)) (k : String) (f : NetIf → NetIf) :
    List (String × NetIf) :=
  m.map (fun p => if p.1 == k then (p.1, f p.2) else p)

/-- One line of the Linux `ip -o addr show` loop. -/
def linuxStep (m : List (String × NetIf)) (line : String) : List (String × NetIf) :=
  let parts := pyWords line
  if parts.length < 4 then m
  else
    let ifname := parts.getD 1 ""
    let family := parts.getD 2 ""
    let ip := takeBefore '/' (parts.getD 3 "")
    let m1 := mapSetDefault m ifname
    if family == "link" then
      match linuxMacSearch line with
      | some mac => mapUpdate m1 ifname (fun i => { i with mac := some mac })
      | none => m1
    else if family == "inet" then
      mapUpdate m1 ifname (fun i => { i with ipv4 := i.ipv4 ++ [ip] })
    else if family == "inet6" then
      mapUpdate m1 ifname (fun i => { i with ipv6 := i.ipv6 ++ [ip] })
    else m1

/-- The Linux variant of `parse_ip_config_posix`. -/
def parse_ip_linux (output : String) : List NetIf :=
  if output == "" then []
  else ((pySplitLines output).foldl linuxStep []).map Prod.snd

/-- One line of the BSD/macOS `ifconfig -a` loop. -/
def bsdStep (st : List NetIf × NetIf) (line : String) : List NetIf × NetIf :=
  if !strStartsWith line "\t" then
    let res := flushIf st.1 st.2
    let a1 :=
      match bsdNameMatch line with
      | some n => { emptyNetIf with name := some n }
      | none => emptyNetIf
    let a2 :=
      match bsdEtherSearch line with
      | some mac => { a1 with mac := some mac }
      | none => a1
    (res, a2)
  else
    let a1 :=
      match bsdInetSearch line with
      | some ip => { st.2 with ipv4 := st.2.ipv4 ++ [ip] }
      | none => st.2
    let a2 :=
      match bsdInet6Search line with
      | some ip => { a1 with ipv6 := a1.ipv6 ++ [ip] }
      | none => a1
    let a3 :=
      match bsdEtherSearch line with
      | some mac => { a2 with mac := some mac }
      | none => a2
    (st.1, a3)

/-- The BSD/macOS variant of `parse_ip_config_posix`. -/
def parse_ip_bsd (output : String) : List NetIf :=
  if output == "" then []
  else
    let st := (pySplitLines output).foldl bsdStep ([], emptyNetIf)
    flushIf st.1 st.2

/-- `parse_ip_config_posix`, as a function of the platform and the raw
command output (`ip -o addr show` on Linux, `ifconfig -a` otherwise). -/
def parse_ip_config_posix (system : PlatformKind) (output : String) : List NetIf :=
  match system with
  | .linux => parse_ip_linux output
  | _ => parse_ip_bsd output

/-- `get_network_info`'s parser dispatch, as a function of the raw output. -/
def network_parser_for (p : PlatformKind) (output : String) : List NetIf :=
  match p with
  | .windows => parse_ip_config_windows output
  | _ => parse_ip_config_posix p output

/-! ## Python exceptions -/

/-- The exceptions the embedded code can raise (uncaught). -/
inductive PyErr
  | valueError
  | indexError
deriving DecidableEq

/-! ## Memory collector (`get_memory_info`) -/

/-- One line of the Windows `wmic OS get ...` key=value loop (both `int`
calls are wrapped in `try/except ValueError` in the source). State is
`(total, free)`. -/
def winMemStep (st : Option Int × Option Int) (line : String) :
    Option Int × Option Int :=
  if strContains line "=" then
    match splitFirst '=' (pyStrip line) with
    | some kv =>
      if kv.1 == "FreePhysicalMemory" then
        match pyInt kv.2 with
        | some n => (st.1, some (n * 1024))
        | none => st
      else if kv.1 == "TotalVisibleMemorySize" then
        match pyInt kv.2 with
        | some n => (some (n * 1024), st.2)
        | none => st
      else st
    | none => st
  else st

def get_memory_windows (wmicOut : String) : Option Int × Option Int :=
  if wmicOut == "" then (none, none)
  else (pySplitLines wmicOut).foldl winMemStep (none, none)

/-- The Linux `free -b` loop: the first line starting with `Mem:` is split;
with at least 4 fields the 2nd and 4th are passed to *bare* `int()` calls,
so an unparseable field raises `ValueError` out of the collector. -/
def freeMemLoop : List String → Except PyErr (Option Int × Option Int)
  | [] => .ok (none, none)
  | line :: rest =>
    if strStartsWith line "Mem:" then
      let parts := pyWords line
      if 4 ≤ parts.length then
        match pyInt (parts.getD 1 "") with
        | none => .error .valueError
        | some t =>
          match pyInt (parts.getD 3 "") with
          | none => .error .valueError
          | some f => .ok (some t, some f)
      else .ok (none, none)
    else freeMemLoop rest

/-- The `/proc/meminfo` fallback: the whole read loop sits in a
`try/except Exception: pass`, so the first failing line stops the loop and
the values assigned so far are kept. -/
def meminfoLoop : Option Int × Option Int → List String → Option Int × Option Int
  | st, [] => st
  | st, line :: rest =>
    if strStartsWith line "MemTotal:" then
      let ws := pyWords line
      if ws.length < 2 then st
      else
        match pyInt (ws.getD 1 "") with
        | none => st
        | some n =>
          let st1 : Option Int × Option Int := (some (n * 1024), st.2)
          if st1.1.isSome && st1.2.isSome then st1 else meminfoLoop st1 rest
    else if strStartsWith line "MemFree:" then
      let ws := pyWords line
      if ws.length < 2 then st
      else
        match pyInt (ws.getD 1 "") with
        | none => st
        | some n =>
          let st1 : Option Int × Option Int := (st.1, some (n * 1024))
          if st1.1.isSome && st1.2.isSome then st1 else meminfoLoop st1 rest
    else
      if st.1.isSome && st.2.isSome then st else meminfoLoop st rest

def get_memory_linux (freeB : String) (meminfo : Option String) :
    Except PyErr (Option Int × Option Int) :=
  if freeB != "" then freeMemLoop (pySplitLines freeB)
  else
    match meminfo with
    | none => .ok (none, none)
    | some content => .ok (meminfoLoop (none, none) (linesKeepNL content))

/-- The `vm_stat` scan for the first `Pages free:` line; `pages_free`
defaults to `0` when no line matches. -/
def pagesFreeScan : List String → Nat
  | [] => 0
  | l :: ls =>
    match pagesFreeMatch l with
    | some n => n
    | none => pagesFreeScan ls

/-- macOS memory: total from `sysctl -n hw.memsize` (only when the output
is a pure digit string), free from `vm_stat` — computed only when the
free-page count is non-zero. -/
def get_memory_darwin (memsizeOut vmOut : String) : Option Int × Option Int :=
  let total : Option Int := if pyIsDigit memsizeOut then pyInt memsizeOut else none
  let free : Option Int :=
    if vmOut == "" then none
    else
      let pageSize := match pageSizeSearch vmOut with | some n => n | none => 4096
      let pf := pagesFreeScan (pySplitLines vmOut)
      if pf != 0 then some ((pf * pageSize : Nat) : Int) else none
  (total, free)

/-! ## Identity collector (`get_domain_name`, `get_local_users`,
`get_hostname`, `get_current_user`) -/

/-- Acceptance test of the POSIX domain cascade:
`output and output.lower() not in ("(none)", "unknown")`. -/
def domainAccept (o : String) : Bool :=
  o != "" && pyLower o != "(none)" && pyLower o != "unknown"

def domainLoop : List String → Option String
  | [] => none
  | o :: os => if domainAccept o then some (pyStrip o) else domainLoop os

/-- The POSIX branch of `get_domain_name`, as a function of the outputs of
`hostname -d`, `dnsdomainname` and `domainname` (in that order). -/
def get_domain_posix (o1 o2 o3 : String) : Option String := domainLoop [o1, o2, o3]

/-- The Windows branch of `get_domain_name`. -/
def get_domain_windows (wmicOut : String) (userdomain : Option String) :
    Option String :=
  let lines := ((pySplitLines wmicOut).map pyStrip).filter (fun l => l != "")
  let domain : Option String := if 2 ≤ lines.length then lines.getLast? else none
  match domain with
  | some d => if d == "" then userdomain else some d
  | none => userdomain

/-- The `net user` column scan: collect whitespace-separated tokens after
the `---` divider, stop at the first blank line. -/
def netUserLoop : Bool → List String → List String
  | _, [] => []
  | false, l :: ls =>
    if strStartsWith (pyStrip l) "---" then netUserLoop true ls
    else netUserLoop false ls
  | true, l :: ls =>
    if pyStrip l == "" then [] else pyWords l ++ netUserLoop true ls

def get_local_users_windows (netUserOut : String) : List String :=
  if netUserOut == "" then [] else netUserLoop false (pySplitLines netUserOut)

/-- `/etc/passwd` account names (file lines keep their newline, as Python
file iteration yields them). -/
def passwdUsers : Option String → List String
  | none => []
  | some content =>
    (linesKeepNL content).filterMap fun line =>
      if pyStrip line == "" || strStartsWith line "#" then none
      else some (takeBefore ':' line)

/-! ## CPU and vendor/model collectors -/

def winCpuScan : List String → Option String
  | [] => none
  | l :: ls =>
    if strStartsWith l "Name=" then
      match splitFirst '=' l with
      | some kv => some (pyStrip kv.2)
      | none => none
    else winCpuScan ls

def get_cpu_windows (wmicOut : String) : Option String :=
  winCpuScan (pySplitLines wmicOut)

/-- Python truthiness of an optional string (`None` and `""` are falsy). -/
def pyTruthyOpt : Option String → Bool
  | some s => s != ""
  | none => false

/-- `/proc/cpuinfo` scan: inside `try/except`, so a matching line without a
colon (an `IndexError`) just aborts the scan with no value. -/
def cpuinfoScan : List String → Option String
  | [] => none
  | l :: ls =>
    if strStartsWith (pyLower l) "model name" then
      match splitFirst ':' l with
      | some kv => some (pyStrip kv.2)
      | none => none
    else cpuinfoScan ls

/-- The `lscpu` fallback loop is *not* guarded: a line containing
`model name` but no colon raises `IndexError`. -/
def lscpuScan : List String → Except PyErr (Option String)
  | [] => .ok none
  | l :: ls =>
    if strContains (pyLower l) "model name" then
      match splitFirst ':' l with
      | some kv => .ok (some (pyStrip kv.2))
      | none => .error .indexError
    else lscpuScan ls

def get_cpu_linux (cpuinfo : Option String) (lscpuOut : String) :
    Except PyErr (Option String) :=
  let c0 : Option String :=
    match cpuinfo with
    | none => none
    | some content => cpuinfoScan (linesKeepNL content)
  if pyTruthyOpt c0 then .ok c0
  else
    match lscpuScan (pySplitLines lscpuOut) with
    | .error e => .error e
    | .ok (some v) => .ok (some v)
    | .ok none => .ok c0

def get_cpu_darwin (brand : String) : Option String :=
  if brand != "" then some (pyStrip brand) else none

/-- Windows `wmic computersystem get manufacturer,model /Value` loop;
state is `(manufacturer, model)`, later lines overwrite. -/
def winCsStep (st : Option String × Option String) (line : String) :
    Option String × Option String :=
  if strStartsWith (pyLower line) "manufacturer=" then
    match splitFirst '=' line with
    | some kv => (some (pyStrip kv.2), st.2)
    | none => st
  else if strStartsWith (pyLower line) "model=" then
    match splitFirst '=' line with
    | some kv => (st.1, some (pyStrip kv.2))
    | none => st
  else st

def get_vendor_model_windows (wmicOut : String) : Option String × Option String :=
  (pySplitLines wmicOut).foldl winCsStep (none, none)

def get_vendor_model_linux (sysVendor productName : Option String) :
    Option String × Option String :=
  (sysVendor.map pyStrip, productName.map pyStrip)

/-- macOS `system_profiler SPHardwareDataType` scan; `Model Identifier` is
used only while the model is still unset. -/
def darwinHwStep (st : Option String × Option String) (line : String) :
    Option String × Option String :=
  if strContains line "Model Name:" then
    match splitFirst ':' line with
    | some kv => (st.1, some (pyStrip kv.2))
    | none => st
  else if strContains line "Model Identifier:" && !pyTruthyOpt st.2 then
    match splitFirst ':' line with
    | some kv => (st.1, some (pyStrip kv.2))
    | none => st
  else if strContains line "Manufacturer:" then
    match splitFirst ':' line with
    | some kv => (some (pyStrip kv.2), st.2)
    | none => st
  else st

def get_vendor_model_darwin (profilerOut : String) : Option String × Option String :=
  if profilerOut == "" then (none, none)
  else (pySplitLines profilerOut).foldl darwinHwStep (none, none)

/-! ## Disk collector (`get_disk_info`) -/

structure DiskVol where
  name : String
  filesystem : Option String
  total : Option Int
  free : Option Int
  used : Option Int
deriving DecidableEq

def winDiskLine (line : String) : Option DiskVol :=
  if line == "" || strStartsWith line "Node" then none
  else
    let parts := pySplitChar ',' line
    if 5 ≤ parts.length then
      let fsRaw := parts.getD 2 ""
      let freeS := parts.getD 3 ""
      let sizeS := parts.getD 4 ""
      let free := if freeS == "" then none else pyInt freeS
      let size := if sizeS == "" then none else pyInt sizeS
      some { name := parts.getD 1 "",
             filesystem := if fsRaw == "" then none else some fsRaw,
             total := size,
             free := free,
             used :=
               match size, free with
               | some s, some f => some (s - f)
               | _, _ => none }
    else none

def get_disk_info_windows (wmicOut : String) : List DiskVol :=
  if wmicOut == "" then []
  else (pySplitLines wmicOut).filterMap winDiskLine

/-- A `df -P -B1` row: fewer than 6 whitespace-separated fields is skipped
whole; each size field is a guarded `int` (`None` on failure). -/
def posixDiskLine (line : String) : Option DiskVol :=
  let parts := pyWords line
  if parts.length < 6 then none
  else
    some { name := parts.getD 5 "",
           filesystem := some (parts.getD 0 ""),
           total := pyInt (parts.getD 1 ""),
           free := pyInt (parts.getD 3 ""),
           used := pyInt (parts.getD 2 "") }

def get_disk_info_posix (dfOut : String) : List DiskVol :=
  if dfOut == "" then []
  else ((pySplitLines dfOut).drop 1).filterMap posixDiskLine

/-! ## Security-tool classifier (`SECURITY_PROCESSES`,
`get_running_process_names`, `detect_security_tools`) -/

/-- Windows process-name normalization used by `get_running_process_names`:
lower-case, then strip a trailing `.exe`. -/
def normWinExe (s : String) : String :=
  let exe := pyLower s
  if strEndsWith exe ".exe" then String.mk (exe.data.take (exe.data.length - 4))
  else exe

def get_running_process_names_windows (tasklistOut : String) : List String :=
  (pySplitLines tasklistOut).filterMap fun line =>
    if line == "" then none
    else some (normWinExe (pyStripQuotes ((pySplitChar ',' line).getD 0 "")))

/-- POSIX process-name normalization: `os.path.basename(line.strip()).lower()`. -/
def normPosixProc (line : String) : String := pyLower (pyBasename (pyStrip line))

def get_running_process_names_posix (psOut : String) : List String :=
  ((pySplitLines psOut).drop 1).map normPosixProc

/-- The `SECURITY_PROCESSES` dict literal, entry for entry in source order
(duplicate keys included: in a Python dict literal the last write wins). -/
def SECURITY_PROCESSES : List (String × String) := [
  ("csfalconservice", "CrowdStrike Falcon"),
  ("cbcomms", "CrowdStrike Falcon Insight XDR"),
  ("crowdstrike", "CrowdStrike Falcon"),
  ("carbonsensor", "VMware Carbon Black EDR"),
  ("cb.exe", "Carbon Black EDR"),
  ("cpx", "SentinelOne Singularity XDR"),
  ("cybereason", "Cybereason EDR"),
  ("tanclient", "Tanium EDR"),
  ("xagt", "FireEye HX"),
  ("trapsagent", "Palo Alto Networks Cortex XDR"),
  ("trapsd", "Palo Alto Networks Cortex XDR"),
  ("msmpeng", "Microsoft Defender"),
  ("msascuil", "Microsoft Defender"),
  ("windefend", "Microsoft Defender"),
  ("sysmon", "Microsoft Sysmon"),
  ("ccsvchst", "Symantec Endpoint Protection"),
  ("rtvscan", "Symantec Endpoint Protection"),
  ("edpa", "McAfee Endpoint Security"),
  ("shstat", "McAfee VirusScan"),
  ("mcshield", "McAfee VirusScan"),
  ("mfefire", "McAfee Host Intrusion Prevention"),
  ("dlpsensor", "McAfee DLP Sensor"),
  ("bdagent", "Bitdefender"),
  ("vsserv", "Bitdefender"),
  ("savservice", "Sophos Endpoint Security"),
  ("sophosav", "Sophos Endpoint Security"),
  ("sophossps", "Sophos Endpoint Security"),
  ("sophosui", "Sophos Endpoint Security"),
  ("pavfnsvr", "Panda Security"),
  ("pavsrv", "Panda Security"),
  ("psanhost", "Panda Security"),
  ("panda_url_filtering", "Panda Security"),
  ("cpd", "Check Point Daemon"),
  ("fw", "Check Point Firewall"),
  ("fortiedr", "Fortinet FortiEDR"),
  ("egui", "ESET NOD32"),
  ("ekrn", "ESET NOD32"),
  ("avp", "Kaspersky Anti‑Virus"),
  ("avastsvc", "Avast"),
  ("avastui", "Avast"),
  ("avgnt", "Avira"),
  ("avguard", "Avira"),
  ("mbamservice", "Malwarebytes"),
  ("mbamtray", "Malwarebytes"),
  ("firesvc", "FireEye Endpoint Agent"),
  ("firetray", "FireEye Endpoint Agent"),
  ("dlpagent", "Symantec DLP Agent"),
  ("mbamservice", "Malwarebytes"),
  ("mbamtray", "Malwarebytes"),
  ("savservice", "Sophos Endpoint Security"),
  ("wrsa", "Webroot SecureAnywhere"),
  ("truecrypt", "TrueCrypt (encryption tool)")]

/-- Lookup in a Python dict literal given as its entry list: the last
binding of a key wins. -/
def dictFind : List (String × String) → String → Option String
  | [], _ => none
  | kv :: rest, k =>
    match dictFind rest k with
    | some v => some v
    | none => if kv.1 == k then some kv.2 else none

/-- Insertion into a sorted duplicate-free list (the model of adding one
element to a Python `set` and keeping `sorted(...)` of it). -/
def insertSorted (x : String) : List String → List String
  | [] => [x]
  | y :: ys =>
    if x < y then x :: y :: ys
    else if x == y then y :: ys
    else y :: insertSorted x ys

/-- Python `sorted(set(l))` for strings (code-point lexicographic order). -/
def pySortedSet (l : List String) : List String :=
  l.foldl (fun acc x => insertSorted x acc) []

/-- `detect_security_tools`, as a function of the running process names:
exact-match lookups, hits collected into a set, returned sorted. -/
def detect_security_tools (running : List String) : List String :=
  pySortedSet (running.filterMap (dictFind SECURITY_PROCESSES))

/-! ## Report assembler (`gather_host_info`) -/

structure OsInfo where
  system : String
  release : String
  version : String
  architecture : String
deriving DecidableEq

structure BasicConfig where
  hostname : String
  domain : Option String
  current_user : String
  os : OsInfo
  users : List String
deriving DecidableEq

structure HardwareInfo where
  manufacturer : Option String
  model : Option String
  cpu : Option String
  memory_total_bytes : Option Int
  memory_free_bytes : Option Int
  disks : List DiskVol
deriving DecidableEq

structure SecurityTools where
  detected : List String
  detection_method : String
deriving DecidableEq

structure HostReport where
  collected_at : String
  basic_config : BasicConfig
  network : List NetIf
  hardware : HardwareInfo
  security_tools : SecurityTools
deriving DecidableEq

/-- One fixed assignment of every external fact source the collectors
query: command outputs as `run_command` returns them (stripped stdout, `""`
on failure), file contents as `Option` (`none` = unreadable), plus the
ambient identity lookups. -/
structure Env where
  hostname : Option String
  getpassUser : Option String
  envUSER : Option String
  envUSERDOMAIN : Option String
  osSystem : String
  osRelease : String
  osVersion : String
  osArch : String
  wmicDomain : String
  hostnameD : String
  dnsdomainname : String
  domainname : String
  netUser : String
  etcPasswd : Option String
  ipconfigAll : String
  ipAddrShow : String
  ifconfigA : String
  wmicOsMem : String
  freeB : String
  procMeminfo : Option String
  sysctlMemsize : String
  vmStat : String
  wmicCpu : String
  procCpuinfo : Option String
  lscpu : String
  sysctlCpuBrand : String
  wmicCs : String
  sysVendor : Option String
  productName : Option String
  systemProfiler : String
  wmicDisk : String
  dfP : String
  tasklist : String
  psComm : String

def get_hostname (env : Env) : String := env.hostname.getD ""

def get_current_user (env : Env) : String :=
  match env.getpassUser with
  | some u => u
  | none => env.envUSER.getD ""

def get_os_info (env : Env) : OsInfo :=
  { system := env.osSystem, release := env.osRelease,
    version := env.osVersion, architecture := env.osArch }

def get_domain_name (p : PlatformKind) (env : Env) : Option String :=
  match p with
  | .windows => get_domain_windows env.wmicDomain env.envUSERDOMAIN
  | _ => get_domain_posix env.hostnameD env.dnsdomainname env.domainname

def get_local_users (p : PlatformKind) (env : Env) : List String :=
  match p with
  | .windows => get_local_users_windows env.netUser
  | _ => passwdUsers env.etcPasswd

def get_network_info (p : PlatformKind) (env : Env) : List NetIf :=
  match p with
  | .windows => network_parser_for .windows env.ipconfigAll
  | .linux => network_parser_for .linux env.ipAddrShow
  | .darwin => network_parser_for .darwin env.ifconfigA
  | .otherPosix => network_parser_for .otherPosix env.ifconfigA

def get_memory_info (p : PlatformKind) (env : Env) :
    Except PyErr (Option Int × Option Int) :=
  match p with
  | .windows => .ok (get_memory_windows env.wmicOsMem)
  | .linux => get_memory_linux env.freeB env.procMeminfo
  | .darwin => .ok (get_memory_darwin env.sysctlMemsize env.vmStat)
  | .otherPosix => .ok (none, none)

def get_cpu_info (p : PlatformKind) (env : Env) : Except PyErr (Option String) :=
  match p with
  | .windows => .ok (get_cpu_windows env.wmicCpu)
  | .linux => get_cpu_linux env.procCpuinfo env.lscpu
  | .darwin => .ok (get_cpu_darwin env.sysctlCpuBrand)
  | .otherPosix => .ok none

def get_vendor_model (p : PlatformKind) (env : Env) :
    Option String × Option String :=
  match p with
  | .windows => get_vendor_model_windows env.wmicCs
  | .linux => get_vendor_model_linux env.sysVendor env.productName
  | .darwin => get_vendor_model_darwin env.systemProfiler
  | .otherPosix => (none, none)

def get_disk_info (p : PlatformKind) (env : Env) : List DiskVol :=
  match p with
  | .windows => get_disk_info_windows env.wmicDisk
  | _ => get_disk_info_posix env.dfP

def get_running_process_names (p : PlatformKind) (env : Env) : List String :=
  match p with
  | .windows => get_running_process_names_windows env.tasklist
  | _ => get_running_process_names_posix env.psComm

/-- `gather_host_info`: pure aggregation of every collector over one fixed
environment, stamped with the timestamp string `ts`. An uncaught exception
in the memory or CPU collector (both possible on Linux) aborts the whole
report, exactly as in the source. -/
def gather_host_info (p : PlatformKind) (env : Env) (ts : String) :
    Except PyErr HostReport :=
  match get_memory_info p env with
  | .error e => .error e
  | .ok mem =>
    match get_cpu_info p env with
    | .error e => .error e
    | .ok cpu =>
      let vm := get_vendor_model p env
      .ok {
        collected_at := ts,
        basic_config := {
          hostname := get_hostname env,
          domain := get_domain_name p env,
          current_user := get_current_user env,
          os := get_os_info env,
          users := get_local_users p env },
        network := get_network_info p env,
        hardware := {
          manufacturer := vm.1,
          model := vm.2,
          cpu := cpu,
          memory_total_bytes := mem.1,
          memory_free_bytes := mem.2,
          disks := get_disk_info p env },
        security_tools := {
          detected := detect_security_tools (get_running_process_names p env),
          detection_method := "process_scan" } }

/-! ## Specification predicates and fixtures -/

/-- Well-formed Windows `ipconfig /all` text: every key/value line sits in a
block opened by an adapter-header line (the flag tracks whether the current
block, since the last blank-line flush, has seen a header). -/
def wfWinLines : Bool → List String → Bool
  | _, [] => true
  | flag, l :: ls =>
    if pyStrip l == "" then wfWinLines false ls
    else if isWinHeader l then wfWinLines true ls
    else flag && wfWinLines flag ls

def wfWin (raw : String) : Bool := wfWinLines false (pySplitLines raw)

/-- Well-formed BSD `ifconfig -a` text: every indented line belongs to an
already-opened interface block, and every unindented line carries a
`name:` header the parser's regex accepts. -/
def wfBsdLines : Bool → List String → Bool
  | _, [] => true
  | flag, l :: ls =>
    if strStartsWith l "\t" then flag && wfBsdLines flag ls
    else (bsdNameMatch l).isSome && wfBsdLines true ls

def wfBsd (raw : String) : Bool := wfBsdLines false (pySplitLines raw)

/-- The MAC stored by the first map entry keyed `k` (`none` when absent). -/
def macOfKey : List (String × NetIf) → String → Option String
  | [], _ => none
  | q :: rest, k => if q.1 == k then q.2.mac else macOfKey rest k

/-- The last element of `xs`, or `d` when `xs` is empty. -/
def lastOr (xs : List String) (d : Option String) : Option String :=
  xs.foldl (fun _ x => some x) d

/-- The parseable MAC a Linux `ip -o addr show` line contributes to the
interface named `k`: the line must have at least 4 fields, name `k`,
family tag `link`, and a MAC the extraction regex accepts. -/
def relevantMac (k : String) (line : String) : Option String :=
  let parts := pyWords line
  if 4 ≤ parts.length && parts.getD 1 "" == k && parts.getD 2 "" == "link" then
    linuxMacSearch line
  else none

/-- Every MAC contributed to interface `k` by the lines of `raw`, in input
order. -/
def linuxMacsFor (raw : String) (k : String) : List String :=
  (pySplitLines raw).filterMap (relevantMac k)

/-- C3's Linux hypothesis: `ifname` never occurs as the 2nd whitespace
field of a line with at least 4 fields. -/
def linuxNameAbsent (raw ifname : String) : Bool :=
  (pySplitLines raw).all fun l =>
    !(decide (4 ≤ (pyWords l).length) && (pyWords l).getD 1 "" == ifname)

/-- An environment in which every external source fails (empty command
output, unreadable files, no ambient identity). -/
def defaultEnv : Env :=
  { hostname := none, getpassUser := none, envUSER := none,
    envUSERDOMAIN := none, osSystem := "", osRelease := "", osVersion := "",
    osArch := "", wmicDomain := "", hostnameD := "", dnsdomainname := "",
    domainname := "", netUser := "", etcPasswd := none, ipconfigAll := "",
    ipAddrShow := "", ifconfigA := "", wmicOsMem := "", freeB := "",
    procMeminfo := none, sysctlMemsize := "", vmStat := "", wmicCpu := "",
    procCpuinfo := none, lscpu := "", sysctlCpuBrand := "", wmicCs := "",
    sysVendor := none, productName := none, systemProfiler := "",
    wmicDisk := "", dfP := "", tasklist := "", psComm := "" }

/-! ## Helper lemmas -/

set_option maxRecDepth 4000

theorem adapterNonempty_emptyNetIf : adapterNonempty emptyNetIf = false := rfl

theorem flushIf_names (res : List NetIf) (ad : NetIf)
    (hres : ∀ i ∈ res, i.name.isSome = true)
    (had : ad.name.isSome = true ∨ ad = emptyNetIf) :
    ∀ i ∈ flushIf res ad, i.name.isSome = true := by
  intro i hi
  unfold flushIf at hi
  split at hi
  · rcases List.mem_append.mp hi with hm | hm
    · exact hres i hm
    · rcases List.mem_singleton.mp hm with rfl
      rcases had with hname | hempty
      · exact hname
      · rename_i hne
        rw [hempty, adapterNonempty_emptyNetIf] at hne
        cases hne
  · exact hres i hi

theorem flushIf_nonempty (res : List NetIf) (ad : NetIf)
    (hres : ∀ i ∈ res, adapterNonempty i = true) :
    ∀ i ∈ flushIf res ad, adapterNonempty i = true := by
  intro i hi
  unfold flushIf at hi
  split at hi
  · rcases List.mem_append.mp hi with hm | hm
    · exact hres i hm
    · rcases List.mem_singleton.mp hm with rfl
      assumption
  · exact hres i hi

theorem mem_flushIf (res : List NetIf) (ad i : NetIf) (hi : i ∈ flushIf res ad) :
    i ∈ res ∨ i = ad := by
  unfold flushIf at hi
  split at hi
  · rcases List.mem_append.mp hi with hm | hm
    · exact Or.inl hm
    · exact Or.inr (List.mem_singleton.mp hm)
  · exact Or.inl hi

theorem lastOr_cons (x : String) (xs : List String) (d : Option String) :
    lastOr (x :: xs) d = lastOr xs (some x) := rfl

theorem lastOr_eq_getLast? (xs : List String) (d : Option String) :
    lastOr xs d = match xs.getLast? with | some v => some v | none => d := by
  induction xs generalizing d with
  | nil => rfl
  | cons x xs ih =>
    rw [lastOr_cons, ih]
    cases hxs : xs.getLast? with
    | none =>
      rw [List.getLast?_eq_none_iff.mp hxs]
      rfl
    | some v =>
      rcases xs with _ | ⟨y, ys⟩
      · simp at hxs
      · rw [List.getLast?_cons_cons, hxs]

theorem mem_mapSetDefault (m : List (String × NetIf)) (k : String)
    (q : String × NetIf) (hq : q ∈ mapSetDefault m k) :
    q ∈ m ∨ q = (k, { emptyNetIf with name := some k }) := by
  unfold mapSetDefault at hq
  split at hq
  · exact Or.inl hq
  · rcases List.mem_append.mp hq with hm | hm
    · exact Or.inl hm
    · exact Or.inr (List.mem_singleton.mp hm)

theorem mem_mapUpdate (m : List (String × NetIf)) (k : String) (f : NetIf → NetIf)
    (q : String × NetIf) (hq : q ∈ mapUpdate m k f) :
    ∃ p ∈ m, q.1 = p.1 ∧ (q.2 = p.2 ∨ q.2 = f p.2) := by
  unfold mapUpdate at hq
  rcases List.mem_map.mp hq with ⟨p, hp, he⟩
  by_cases hk : (p.1 == k) = true
  · rw [if_pos hk] at he
    exact ⟨p, hp, by rw [← he], Or.inr (by rw [← he])⟩
  · rw [if_neg hk] at he
    exact ⟨p, hp, by rw [← he], Or.inl (by rw [← he])⟩

theorem name_inv_mapSetDefault (m : List (String × NetIf)) (k : String)
    (h : ∀ q ∈ m, q.2.name = some q.1) :
    ∀ q ∈ mapSetDefault m k, q.2.name = some q.1 := by
  intro q hq
  rcases mem_mapSetDefault m k q hq with hm | rfl
  · exact h q hm
  · rfl

theorem name_inv_mapUpdate (m : List (String × NetIf)) (k : String)
    (f : NetIf → NetIf) (hf : ∀ i, (f i).name = i.name)
    (h : ∀ q ∈ m, q.2.name = some q.1) :
    ∀ q ∈ mapUpdate m k f, q.2.name = some q.1 := by
  intro q hq
  rcases mem_mapUpdate m k f q hq with ⟨p, hp, h1, h2 | h2⟩
  · rw [h1, h2]; exact h p hp
  · rw [h1, h2, hf]; exact h p hp

theorem macOfKey_append_macless (m : List (String × NetIf)) (k0 k : String)
    (e : NetIf) (he : e.mac = none) :
    macOfKey (m ++ [(k0, e)]) k = macOfKey m k := by
  induction m with
  | nil =>
    simp only [List.nil_append, macOfKey]
    split
    · exact he
    · rfl
  | cons q rest ih =>
    simp only [List.cons_append, macOfKey]
    split
    · rfl
    · exact ih

theorem macOfKey_mapSetDefault (m : List (String × NetIf)) (k0 k : String) :
    macOfKey (mapSetDefault m k0) k = macOfKey m k := by
  unfold mapSetDefault
  split
  · rfl
  · exact macOfKey_append_macless m k0 k _ rfl

theorem macOfKey_mapUpdate_of_ne (m : List (String × NetIf)) (k0 k : String)
    (f : NetIf → NetIf) (h : k0 ≠ k) :
    macOfKey (mapUpdate m k0 f) k = macOfKey m k := by
  induction m with
  | nil => rfl
  | cons q rest ih =>
    simp only [mapUpdate, List.map_cons] at ih ⊢
    by_cases hq : (q.1 == k0) = true
    · have hqk : (q.1 == k) = false := by
        rw [beq_iff_eq] at hq
        rw [beq_eq_false_iff_ne, hq]
        exact h
      rw [if_pos hq]
      simp only [macOfKey, hqk]
      simpa using ih
    · rw [if_neg hq]
      simp only [macOfKey]
      split
      · rfl
      · exact ih

theorem macOfKey_mapUpdate_macpres (m : List (String × NetIf)) (k0 k : String)
    (f : NetIf → NetIf) (hf : ∀ i, (f i).mac = i.mac) :
    macOfKey (mapUpdate m k0 f) k = macOfKey m k := by
  induction m with
  | nil => rfl
  | cons q rest ih =>
    simp only [mapUpdate, List.map_cons] at ih ⊢
    by_cases hq : (q.1 == k0) = true
    · rw [if_pos hq]
      simp only [macOfKey]
      split
      · exact hf q.2
      · exact ih
    · rw [if_neg hq]
      simp only [macOfKey]
      split
      · rfl
      · exact ih

theorem macOfKey_mapUpdate_setMac (m : List (String × NetIf)) (k : String)
    (v : String) (hk : m.any (fun q => q.1 == k) = true) :
    macOfKey (mapUpdate m k (fun i => { i with mac := some v })) k = some v := by
  induction m with
  | nil => simp at hk
  | cons q rest ih =>
    rw [List.any_cons] at hk
    simp only [mapUpdate, List.map_cons]
    by_cases hq : (q.1 == k) = true
    · rw [if_pos hq]
      simp only [macOfKey, hq, if_pos]
    · rw [if_neg hq]
      simp only [macOfKey, hq]
      rw [if_neg (by simp [hq])]
      have hrest : rest.any (fun q => q.1 == k) = true := by
        rcases Bool.or_eq_true_iff.mp hk with h | h
        · exact absurd h hq
        · exact h
      exact ih hrest

theorem mapSetDefault_hasKey (m : List (String × NetIf)) (k : String) :
    (mapSetDefault m k).any (fun q => q.1 == k) = true := by
  unfold mapSetDefault
  split
  · assumption
  · rw [List.any_append]
    simp

theorem macOfKey_of_mem (m : List (String × NetIf)) (q : String × NetIf)
    (h : (m.map Prod.fst).Nodup) (hq : q ∈ m) :
    macOfKey m q.1 = q.2.mac := by
  induction m with
  | nil => cases hq
  | cons p rest ih =>
    rw [List.map_cons, List.nodup_cons] at h
    rcases List.mem_cons.mp hq with rfl | hmem
    · simp [macOfKey]
    · have hne : (p.1 == q.1) = false := by
        rw [beq_eq_false_iff_ne]
        intro hc
        exact h.1 (hc ▸ List.mem_map_of_mem Prod.fst hmem)
      simp only [macOfKey, hne]
      rw [if_neg (by simp [hne])]
      exact ih h.2 hmem

theorem mapUpdate_keys (m : List (String × NetIf)) (k : String) (f : NetIf → NetIf) :
    (mapUpdate m k f).map Prod.fst = m.map Prod.fst := by
  unfold mapUpdate
  rw [List.map_map]
  apply List.map_congr_left
  intro p _
  simp only [Function.comp_apply]
  split
  · rfl
  · rfl

theorem mapSetDefault_keysNodup (m : List (String × NetIf)) (k : String)
    (h : (m.map Prod.fst).Nodup) : ((mapSetDefault m k).map Prod.fst).Nodup := by
  unfold mapSetDefault
  split
  · exact h
  · rename_i hany
    rw [List.map_append, List.nodup_append]
    refine ⟨h, by simp, ?_⟩
    intro a ha hb
    simp only [List.map_cons, List.map_nil, List.mem_singleton] at hb
    subst hb
    rcases List.mem_map.mp ha with ⟨p, hp, hpk⟩
    exact hany (List.any_eq_true.mpr ⟨p, hp, by simp [hpk]⟩)

theorem linuxStep_name (m : List (String × NetIf)) (line : String)
    (h : ∀ q ∈ m, q.2.name = some q.1) :
    ∀ q ∈ linuxStep m line, q.2.name = some q.1 := by
  intro q hq
  simp only [linuxStep] at hq
  split at hq
  · exact h q hq
  · split at hq
    · split at hq
      · refine name_inv_mapUpdate _ _ _ ?_ (name_inv_mapSetDefault _ _ h) q hq
        intro i; rfl
      · exact name_inv_mapSetDefault _ _ h q hq
    · split at hq
      · refine name_inv_mapUpdate _ _ _ ?_ (name_inv_mapSetDefault _ _ h) q hq
        intro i; rfl
      · split at hq
        · refine name_inv_mapUpdate _ _ _ ?_ (name_inv_mapSetDefault _ _ h) q hq
          intro i; rfl
        · exact name_inv_mapSetDefault _ _ h q hq

theorem linuxStep_keysNodup (m : List (String × NetIf)) (line : String)
    (h : (m.map Prod.fst).Nodup) : ((linuxStep m line).map Prod.fst).Nodup := by
  simp only [linuxStep]
  split
  · exact h
  · split
    · split
      · rw [mapUpdate_keys]; exact mapSetDefault_keysNodup _ _ h
      · exact mapSetDefault_keysNodup _ _ h
    · split
      · rw [mapUpdate_keys]; exact mapSetDefault_keysNodup _ _ h
      · split
        · rw [mapUpdate_keys]; exact mapSetDefault_keysNodup _ _ h
        · exact mapSetDefault_keysNodup _ _ h

theorem linuxStep_keys (m : List (String × NetIf)) (line : String)
    (q : String × NetIf) (hq : q ∈ linuxStep m line) :
    q.1 ∈ m.map Prod.fst ∨
      (4 ≤ (pyWords line).length ∧ q.1 = (pyWords line).getD 1 "") := by
  simp only [linuxStep] at hq
  split at hq
  · exact Or.inl (List.mem_map_of_mem Prod.fst hq)
  · rename_i h4
    have h4' : 4 ≤ (pyWords line).length := Nat.le_of_not_lt h4
    have key : ∀ r ∈ mapSetDefault m ((pyWords line).getD 1 ""),
        r.1 ∈ m.map Prod.fst ∨ r.1 = (pyWords line).getD 1 "" := by
      intro r hr
      rcases mem_mapSetDefault _ _ r hr with hm | hr'
      · exact Or.inl (List.mem_map_of_mem Prod.fst hm)
      · exact Or.inr (by rw [hr'])
    have viaUpd : ∀ (f : NetIf → NetIf),
        q ∈ mapUpdate (mapSetDefault m ((pyWords line).getD 1 ""))
          ((pyWords line).getD 1 "") f →
        q.1 ∈ m.map Prod.fst ∨
          (4 ≤ (pyWords line).length ∧ q.1 = (pyWords line).getD 1 "") := by
      intro f hq'
      rcases mem_mapUpdate _ _ _ q hq' with ⟨p, hp, h1, _⟩
      rcases key p hp with hm | he
      · exact Or.inl (h1 ▸ hm)
      · exact Or.inr ⟨h4', h1 ▸ he⟩
    split at hq
    · split at hq
      · exact viaUpd _ hq
      · rcases key q hq with hm | he
        · exact Or.inl hm
        · exact Or.inr ⟨h4', he⟩
    · split at hq
      · exact viaUpd _ hq
      · split at hq
        · exact viaUpd _ hq
        · rcases key q hq with hm | he
          · exact Or.inl hm
          · exact Or.inr ⟨h4', he⟩

theorem relevantMac_of_short (k line : String) (h : (pyWords line).length < 4) :
    relevantMac k line = none := by
  unfold relevantMac
  rw [if_neg]
  intro hc
  simp only [Bool.and_eq_true, decide_eq_true_eq] at hc
  exact absurd hc.1.1 (Nat.not_le.mpr h)

theorem relevantMac_of_ne (k line : String) (h : (pyWords line).getD 1 "" ≠ k) :
    relevantMac k line = none := by
  unfold relevantMac
  rw [if_neg]
  intro hc
  simp only [Bool.and_eq_true, beq_iff_eq] at hc
  exact h hc.1.2

theorem relevantMac_of_notlink (k line : String)
    (h : (pyWords line).getD 2 "" ≠ "link") : relevantMac k line = none := by
  unfold relevantMac
  rw [if_neg]
  intro hc
  simp only [Bool.and_eq_true, beq_iff_eq] at hc
  exact h hc.2

theorem relevantMac_of_searchNone (k line : String)
    (h : linuxMacSearch line = none) : relevantMac k line = none := by
  simp only [relevantMac]
  split
  · exact h
  · rfl

theorem relevantMac_of_link (k line : String) (h4 : 4 ≤ (pyWords line).length)
    (hk : (pyWords line).getD 1 "" = k) (hf : (pyWords line).getD 2 "" = "link") :
    relevantMac k line = linuxMacSearch line := by
  unfold relevantMac
  rw [if_pos]
  simp only [Bool.and_eq_true, decide_eq_true_eq, beq_iff_eq]
  exact ⟨⟨h4, hk⟩, hf⟩

theorem linuxStep_macOfKey (m : List (String × NetIf)) (line k : String) :
    macOfKey (linuxStep m line) k =
      match relevantMac k line with
      | some v => some v
      | none => macOfKey m k := by
  by_cases h4 : (pyWords line).length < 4
  · have hstep : linuxStep m line = m := by
      simp only [linuxStep]
      rw [if_pos h4]
    rw [hstep, relevantMac_of_short k line h4]
  · have h4' : 4 ≤ (pyWords line).length := Nat.le_of_not_lt h4
    by_cases hfam : (((pyWords line).getD 2 "") == "link") = true
    · have hfameq : (pyWords line).getD 2 "" = "link" := beq_iff_eq.mp hfam
      cases hs : linuxMacSearch line with
      | some v =>
        have hstep : linuxStep m line =
            mapUpdate (mapSetDefault m ((pyWords line).getD 1 ""))
              ((pyWords line).getD 1 "") (fun i => { i with mac := some v }) := by
          simp only [linuxStep]
          rw [if_neg h4, if_pos hfam]
          simp only [hs]
        by_cases hk : (((pyWords line).getD 1 "") == k) = true
        · have hkeq : (pyWords line).getD 1 "" = k := beq_iff_eq.mp hk
          rw [hstep, hkeq,
            macOfKey_mapUpdate_setMac _ _ v (mapSetDefault_hasKey m k),
            relevantMac_of_link k line h4' hkeq hfameq, hs]
        · have hne : (pyWords line).getD 1 "" ≠ k :=
            ne_of_beq_false (Bool.not_eq_true _ ▸ hk)
          rw [hstep, macOfKey_mapUpdate_of_ne _ _ _ _ hne, macOfKey_mapSetDefault,
            relevantMac_of_ne k line hne]
      | none =>
        have hstep : linuxStep m line =
            mapSetDefault m ((pyWords line).getD 1 "") := by
          simp only [linuxStep]
          rw [if_neg h4, if_pos hfam]
          simp only [hs]
        rw [hstep, macOfKey_mapSetDefault, relevantMac_of_searchNone k line hs]
    · have hfamne : (pyWords line).getD 2 "" ≠ "link" :=
        ne_of_beq_false (Bool.not_eq_true _ ▸ hfam)
      rw [relevantMac_of_notlink k line hfamne]
      by_cases hi : (((pyWords line).getD 2 "") == "inet") = true
      · have hstep : linuxStep m line =
            mapUpdate (mapSetDefault m ((pyWords line).getD 1 ""))
              ((pyWords line).getD 1 "")
              (fun i => { i with
                ipv4 := i.ipv4 ++ [takeBefore '/' ((pyWords line).getD 3 "")] }) := by
          simp only [linuxStep]
          rw [if_neg h4, if_neg hfam, if_pos hi]
        rw [hstep]
        rw [macOfKey_mapUpdate_macpres]
        · rw [macOfKey_mapSetDefault]
        · intro i; rfl
      · by_cases hi6 : (((pyWords line).getD 2 "") == "inet6") = true
        · have hstep : linuxStep m line =
              mapUpdate (mapSetDefault m ((pyWords line).getD 1 ""))
                ((pyWords line).getD 1 "")
                (fun i => { i with
                  ipv6 := i.ipv6 ++ [takeBefore '/' ((pyWords line).getD 3 "")] }) := by
            simp only [linuxStep]
            rw [if_neg h4, if_neg hfam, if_neg hi, if_pos hi6]
          rw [hstep]
          rw [macOfKey_mapUpdate_macpres]
          · rw [macOfKey_mapSetDefault]
          · intro i; rfl
        · have hstep : linuxStep m line =
              mapSetDefault m ((pyWords line).getD 1 "") := by
            simp only [linuxStep]
            rw [if_neg h4, if_neg hfam, if_neg hi, if_neg hi6]
          rw [hstep, macOfKey_mapSetDefault]

theorem linuxFold_name (ls : List String) :
    ∀ m, (∀ q ∈ m, q.2.name = some q.1) →
      ∀ q ∈ ls.foldl linuxStep m, q.2.name = some q.1 := by
  induction ls with
  | nil => intro m h; exact h
  | cons l ls ih =>
    intro m h
    rw [List.foldl_cons]
    exact ih _ (linuxStep_name m l h)

theorem linuxFold_keysNodup (ls : List String) :
    ∀ m, (m.map Prod.fst).Nodup → (((ls.foldl linuxStep m)).map Prod.fst).Nodup := by
  induction ls with
  | nil => intro m h; exact h
  | cons l ls ih =>
    intro m h
    rw [List.foldl_cons]
    exact ih _ (linuxStep_keysNodup m l h)

theorem linuxFold_keys (ls : List String) :
    ∀ m q, q ∈ ls.foldl linuxStep m →
      q.1 ∈ m.map Prod.fst ∨
        ∃ l ∈ ls, 4 ≤ (pyWords l).length ∧ q.1 = (pyWords l).getD 1 "" := by
  induction ls with
  | nil =>
    intro m q hq
    exact Or.inl (List.mem_map_of_mem Prod.fst hq)
  | cons l ls ih =>
    intro m q hq
    rw [List.foldl_cons] at hq
    rcases ih _ q hq with hm | ⟨l', hl', hp⟩
    · rcases List.mem_map.mp hm with ⟨r, hr, hrk⟩
      rcases linuxStep_keys m l r hr with hm' | ⟨hlen, hkey⟩
      · exact Or.inl (hrk ▸ hm')
      · exact Or.inr ⟨l, List.mem_cons_self l ls, hlen, by rw [← hrk, hkey]⟩
    · exact Or.inr ⟨l', List.mem_cons_of_mem l hl', hp⟩

theorem linuxFold_macOfKey (ls : List String) :
    ∀ m k, macOfKey (ls.foldl linuxStep m) k =
      lastOr (ls.filterMap (relevantMac k)) (macOfKey m k) := by
  induction ls with
  | nil => intro m k; rfl
  | cons l ls ih =>
    intro m k
    rw [List.foldl_cons, ih, List.filterMap_cons]
    cases hr : relevantMac k l with
    | none => rw [linuxStep_macOfKey, hr]
    | some v => rw [lastOr_cons, linuxStep_macOfKey, hr]

theorem winStep_blank (res : List NetIf) (ad : NetIf) (l : String)
    (hb : (pyStrip l == "") = true) :
    winStep (res, ad) l = (flushIf res ad, emptyNetIf) := by
  simp only [winStep]
  rw [if_pos hb]

theorem winStep_header (res : List NetIf) (ad : NetIf) (l : String)
    (hb : (pyStrip l == "") = false) (hh : isWinHeader l = true) :
    winStep (res, ad) l =
      (flushIf res ad, { emptyNetIf with name := some (pyRStripColon (pyStrip l)) }) := by
  simp only [winStep]
  rw [if_neg (by simp [hb]), if_pos hh]

theorem winStep_data (res : List NetIf) (ad : NetIf) (l : String)
    (hb : (pyStrip l == "") = false) (hh : isWinHeader l = false) :
    (winStep (res, ad) l).1 = res ∧ (winStep (res, ad) l).2.name = ad.name := by
  simp only [winStep]
  rw [if_neg (by simp [hb]), if_neg (by simp [hh])]
  cases hs : splitFirst ':' l with
  | none => exact ⟨rfl, rfl⟩
  | some kv =>
    dsimp only
    split_ifs <;> exact ⟨rfl, rfl⟩

theorem winFold_names : ∀ (ls : List String) (flag : Bool) (res : List NetIf)
    (ad : NetIf), wfWinLines flag ls = true →
    (∀ i ∈ res, i.name.isSome = true) →
    (flag = true → ad.name.isSome = true) →
    (flag = false → ad = emptyNetIf) →
    (∀ i ∈ (ls.foldl winStep (res, ad)).1, i.name.isSome = true) ∧
      ((ls.foldl winStep (res, ad)).2.name.isSome = true ∨
        (ls.foldl winStep (res, ad)).2 = emptyNetIf) := by
  intro ls
  induction ls with
  | nil =>
    intro flag res ad _ hres hT hF
    refine ⟨hres, ?_⟩
    cases flag
    · exact Or.inr (hF rfl)
    · exact Or.inl (hT rfl)
  | cons l ls ih =>
    intro flag res ad hwf hres hT hF
    have hdisj : ad.name.isSome = true ∨ ad = emptyNetIf := by
      cases flag
      · exact Or.inr (hF rfl)
      · exact Or.inl (hT rfl)
    rw [List.foldl_cons]
    by_cases hb : (pyStrip l == "") = true
    · rw [winStep_blank res ad l hb]
      have hwf' : wfWinLines false ls = true := by
        simp only [wfWinLines] at hwf
        rwa [if_pos hb] at hwf
      exact ih false _ _ hwf' (flushIf_names res ad hres hdisj)
        (fun hc => absurd hc (by decide)) (fun _ => rfl)
    · have hb' : (pyStrip l == "") = false := by
        revert hb; cases pyStrip l == "" <;> simp
      by_cases hh : isWinHeader l = true
      · rw [winStep_header res ad l hb' hh]
        have hwf' : wfWinLines true ls = true := by
          simp only [wfWinLines] at hwf
          rwa [if_neg (by simp [hb']), if_pos hh] at hwf
        exact ih true _ _ hwf' (flushIf_names res ad hres hdisj)
          (fun _ => rfl) (fun hc => absurd hc (by decide))
      · have hh' : isWinHeader l = false := by
          revert hh; cases isWinHeader l <;> simp
        have hwf2 : flag = true ∧ wfWinLines flag ls = true := by
          simp only [wfWinLines] at hwf
          rw [if_neg (by simp [hb']), if_neg (by simp [hh'])] at hwf
          simp only [Bool.and_eq_true] at hwf
          exact hwf
        obtain ⟨hfl, hwf'⟩ := hwf2
        subst hfl
        obtain ⟨h1, h2⟩ := winStep_data res ad l hb' hh'
        have hres' : ∀ i ∈ (winStep (res, ad) l).1, i.name.isSome = true := by
          rw [h1]; exact hres
        have hname' : (winStep (res, ad) l).2.name.isSome = true := by
          rw [h2]; exact hT rfl
        have hstep := ih true (winStep (res, ad) l).1 (winStep (res, ad) l).2 hwf'
          hres' (fun _ => hname') (fun hc => absurd hc (by decide))
        simpa using hstep

theorem bsdStep_indented (res : List NetIf) (ad : NetIf) (l : String)
    (h : strStartsWith l "\t" = true) :
    (bsdStep (res, ad) l).1 = res ∧
    (bsdStep (res, ad) l).2.name = ad.name ∧
    (bsdStep (res, ad) l).2.mac =
      (match bsdEtherSearch l with | some v => some v | none => ad.mac) := by
  simp only [bsdStep]
  rw [if_neg (by simp [h])]
  cases h4 : bsdInetSearch l <;> cases h6 : bsdInet6Search l <;>
    cases he : bsdEtherSearch l <;> simp [h4, h6, he]

theorem bsdStep_unindented (res : List NetIf) (ad : NetIf) (l : String)
    (h : strStartsWith l "\t" = false) :
    (bsdStep (res, ad) l).1 = flushIf res ad ∧
    (bsdStep (res, ad) l).2.name = bsdNameMatch l ∧
    (bsdStep (res, ad) l).2.mac = bsdEtherSearch l := by
  simp only [bsdStep]
  rw [if_pos (by simp [h])]
  cases hn : bsdNameMatch l <;> cases he : bsdEtherSearch l <;>
    simp [hn, he, emptyNetIf]

theorem bsdFold_names : ∀ (ls : List String) (flag : Bool) (res : List NetIf)
    (ad : NetIf), wfBsdLines flag ls = true →
    (∀ i ∈ res, i.name.isSome = true) →
    (flag = true → ad.name.isSome = true) →
    (flag = false → ad = emptyNetIf) →
    (∀ i ∈ (ls.foldl bsdStep (res, ad)).1, i.name.isSome = true) ∧
      ((ls.foldl bsdStep (res, ad)).2.name.isSome = true ∨
        (ls.foldl bsdStep (res, ad)).2 = emptyNetIf) := by
  intro ls
  induction ls with
  | nil =>
    intro flag res ad _ hres hT hF
    refine ⟨hres, ?_⟩
    cases flag
    · exact Or.inr (hF rfl)
    · exact Or.inl (hT rfl)
  | cons l ls ih =>
    intro flag res ad hwf hres hT hF
    have hdisj : ad.name.isSome = true ∨ ad = emptyNetIf := by
      cases flag
      · exact Or.inr (hF rfl)
      · exact Or.inl (hT rfl)
    rw [List.foldl_cons]
    by_cases ht : strStartsWith l "\t" = true
    · have hwf2 : flag = true ∧ wfBsdLines flag ls = true := by
        simp only [wfBsdLines] at hwf
        rw [if_pos ht] at hwf
        simp only [Bool.and_eq_true] at hwf
        exact hwf
      obtain ⟨hfl, hwf'⟩ := hwf2
      subst hfl
      obtain ⟨h1, h2, _⟩ := bsdStep_indented res ad l ht
      have hres' : ∀ i ∈ (bsdStep (res, ad) l).1, i.name.isSome = true := by
        rw [h1]; exact hres
      have hname' : (bsdStep (res, ad) l).2.name.isSome = true := by
        rw [h2]; exact hT rfl
      have hstep := ih true (bsdStep (res, ad) l).1 (bsdStep (res, ad) l).2 hwf'
        hres' (fun _ => hname') (fun hc => absurd hc (by decide))
      simpa using hstep
    · have ht' : strStartsWith l "\t" = false := by
        revert ht; cases strStartsWith l "\t" <;> simp
      have hwf2 : (bsdNameMatch l).isSome = true ∧ wfBsdLines true ls = true := by
        simp only [wfBsdLines] at hwf
        rw [if_neg (by simp [ht'])] at hwf
        simp only [Bool.and_eq_true] at hwf
        exact hwf
      obtain ⟨hn, hwf'⟩ := hwf2
      obtain ⟨h1, h2, _⟩ := bsdStep_unindented res ad l ht'
      have hres' : ∀ i ∈ (bsdStep (res, ad) l).1, i.name.isSome = true := by
        rw [h1]; exact flushIf_names res ad hres hdisj
      have hname' : (bsdStep (res, ad) l).2.name.isSome = true := by
        rw [h2]; exact hn
      have hstep := ih true (bsdStep (res, ad) l).1 (bsdStep (res, ad) l).2 hwf'
        hres' (fun _ => hname') (fun hc => absurd hc (by decide))
      simpa using hstep

theorem bsdFold_nonempty : ∀ (ls : List String) (res : List NetIf) (ad : NetIf),
    (∀ i ∈ res, adapterNonempty i = true) →
    ∀ i ∈ (ls.foldl bsdStep (res, ad)).1, adapterNonempty i = true := by
  intro ls
  induction ls with
  | nil => intro res ad h; exact h
  | cons l ls ih =>
    intro res ad h
    rw [List.foldl_cons]
    by_cases ht : strStartsWith l "\t" = true
    · obtain ⟨h1, _, _⟩ := bsdStep_indented res ad l ht
      have h' : ∀ i ∈ (bsdStep (res, ad) l).1, adapterNonempty i = true := by
        rw [h1]; exact h
      have hstep := ih (bsdStep (res, ad) l).1 (bsdStep (res, ad) l).2 h'
      simpa using hstep
    · have ht' : strStartsWith l "\t" = false := by
        revert ht; cases strStartsWith l "\t" <;> simp
      obtain ⟨h1, _, _⟩ := bsdStep_unindented res ad l ht'
      have h' : ∀ i ∈ (bsdStep (res, ad) l).1, adapterNonempty i = true := by
        rw [h1]; exact flushIf_nonempty res ad h
      have hstep := ih (bsdStep (res, ad) l).1 (bsdStep (res, ad) l).2 h'
      simpa using hstep

theorem bsdFold_res_const : ∀ (ls : List String) (res : List NetIf) (ad : NetIf),
    (∀ l ∈ ls, strStartsWith l "\t" = true) →
    (ls.foldl bsdStep (res, ad)).1 = res := by
  intro ls
  induction ls with
  | nil => intro res ad _; rfl
  | cons l ls ih =>
    intro res ad hall
    rw [List.foldl_cons]
    obtain ⟨h1, _, _⟩ := bsdStep_indented res ad l (hall l (List.mem_cons_self l ls))
    have hstep := ih (bsdStep (res, ad) l).1 (bsdStep (res, ad) l).2
      (fun x hx => hall x (List.mem_cons_of_mem l hx))
    rw [Prod.mk.eta] at hstep
    rw [hstep, h1]

theorem bsdFold_mac : ∀ (ls : List String) (res : List NetIf) (ad : NetIf),
    (∀ l ∈ ls, strStartsWith l "\t" = true) →
    ((ls.foldl bsdStep (res, ad)).2).mac = lastOr (ls.filterMap bsdEtherSearch) ad.mac := by
  intro ls
  induction ls with
  | nil => intro res ad _; rfl
  | cons l ls ih =>
    intro res ad hall
    rw [List.foldl_cons]
    obtain ⟨_, _, h3⟩ := bsdStep_indented res ad l (hall l (List.mem_cons_self l ls))
    have hrec := ih (bsdStep (res, ad) l).1 (bsdStep (res, ad) l).2
      (fun x hx => hall x (List.mem_cons_of_mem l hx))
    rw [Prod.mk.eta] at hrec
    cases he : bsdEtherSearch l with
    | none =>
      simp only [List.filterMap_cons, he]
      rw [hrec, h3, he]
    | some v =>
      simp only [List.filterMap_cons, he]
      rw [lastOr_cons, hrec, h3, he]

theorem mem_insertSorted (x a : String) (l : List String) :
    a ∈ insertSorted x l ↔ a = x ∨ a ∈ l := by
  induction l with
  | nil => simp [insertSorted]
  | cons y ys ih =>
    simp only [insertSorted]
    split_ifs with h1 h2
    · simp only [List.mem_cons]
    · have hxy : x = y := beq_iff_eq.mp h2
      simp only [List.mem_cons, hxy]
      tauto
    · simp only [List.mem_cons, ih]
      tauto

theorem sorted_insertSorted (x : String) (l : List String)
    (h : l.Sorted (· < ·)) : (insertSorted x l).Sorted (· < ·) := by
  induction l with
  | nil => simp [insertSorted]
  | cons y ys ih =>
    rw [List.sorted_cons] at h
    simp only [insertSorted]
    split_ifs with h1 h2
    · rw [List.sorted_cons]
      constructor
      · intro b hb
        rcases List.mem_cons.mp hb with rfl | hb'
        · exact h1
        · exact lt_trans h1 (h.1 b hb')
      · rw [List.sorted_cons]
        exact h
    · rw [List.sorted_cons]
      exact h
    · rw [List.sorted_cons]
      constructor
      · intro b hb
        rcases (mem_insertSorted x b ys).mp hb with rfl | hb'
        · have hne : b ≠ y := by
            intro hc
            exact h2 (by simp [hc])
          exact lt_of_le_of_ne (not_lt.mp h1) (Ne.symm hne)
        · exact h.1 b hb'
      · exact ih h.2

theorem sortedSet_sorted_aux : ∀ (l acc : List String), acc.Sorted (· < ·) →
    (l.foldl (fun a x => insertSorted x a) acc).Sorted (· < ·) := by
  intro l
  induction l with
  | nil => intro acc h; exact h
  | cons x xs ih =>
    intro acc h
    rw [List.foldl_cons]
    exact ih _ (sorted_insertSorted x acc h)

theorem mem_sortedSet_aux : ∀ (l acc : List String) (a : String),
    a ∈ l.foldl (fun a x => insertSorted x a) acc ↔ a ∈ acc ∨ a ∈ l := by
  intro l
  induction l with
  | nil => intro acc a; simp
  | cons x xs ih =>
    intro acc a
    rw [List.foldl_cons, ih, mem_insertSorted]
    simp only [List.mem_cons]
    tauto

theorem detect_sorted (running : List String) :
    (detect_security_tools running).Sorted (· < ·) :=
  sortedSet_sorted_aux _ [] (by simp)

theorem detect_nodup (running : List String) :
    (detect_security_tools running).Nodup :=
  List.Pairwise.imp (fun h => ne_of_lt h) (detect_sorted running)

theorem detect_mem (running : List String) :
    ∀ x, x ∈ detect_security_tools running ↔
      ∃ p ∈ running, dictFind SECURITY_PROCESSES p = some x := by
  intro x
  unfold detect_security_tools pySortedSet
  rw [mem_sortedSet_aux]
  simp [List.mem_filterMap]

/-! ## Claim theorems -/

/-- C1: the claim says any `free -b` field that fails to parse as an
integer becomes `None` and never aborts the collector.  The code calls bare
`int()` on the 2nd and 4th fields of the `Mem:` line, so an unparseable
field raises an uncaught `ValueError` that aborts `get_memory_info` and the
whole `gather_host_info` report — contradicting the function's own
docstring ("if a method fails the values are set to None"). -/
theorem C1_linux_memory_raises :
    get_memory_linux "Mem: garbage 1 2" none = Except.error PyErr.valueError ∧
    gather_host_info PlatformKind.linux
        { defaultEnv with freeB := "Mem: garbage 1 2" } "2026-10-12T00:00:00Z" =
      Except.error PyErr.valueError :=
  ⟨rfl, rfl⟩

/-- C2 (amended): a name is present on every record of the Linux parser
unconditionally; for the Windows and BSD parsers the invariant holds for
well-formed input — every key/value line inside a block opened by an
adapter header (Windows), every indented line inside an opened interface
block whose header the name regex accepts (BSD).  On other inputs those
two parsers can emit a record with a MAC/address but no name. -/
theorem C2_name_invariant_wellformed :
    (∀ raw : String, ∀ i ∈ parse_ip_linux raw, i.name.isSome = true) ∧
    (∀ raw : String, wfWin raw = true →
      ∀ i ∈ parse_ip_config_windows raw, i.name.isSome = true) ∧
    (∀ raw : String, wfBsd raw = true →
      ∀ i ∈ parse_ip_bsd raw, i.name.isSome = true) := by
  refine ⟨?_, ?_, ?_⟩
  · intro raw i hi
    simp only [parse_ip_linux] at hi
    split at hi
    · simp at hi
    · rcases List.mem_map.mp hi with ⟨q, hq, rfl⟩
      have hn := linuxFold_name (pySplitLines raw) [] (by simp) q hq
      rw [hn]
      rfl
  · intro raw hwf i hi
    simp only [parse_ip_config_windows] at hi
    split at hi
    · simp at hi
    · obtain ⟨h1, h2⟩ := winFold_names (pySplitLines raw) false [] emptyNetIf hwf
        (by simp) (fun hc => absurd hc (by decide)) (fun _ => rfl)
      exact flushIf_names _ _ h1 h2 i hi
  · intro raw hwf i hi
    simp only [parse_ip_bsd] at hi
    split at hi
    · simp at hi
    · obtain ⟨h1, h2⟩ := bsdFold_names (pySplitLines raw) false [] emptyNetIf hwf
        (by simp) (fun hc => absurd hc (by decide)) (fun _ => rfl)
      exact flushIf_names _ _ h1 h2 i hi

/-- C2 counterexample: a Windows `ipconfig` text whose key/value line is
preceded by no adapter header yields a record carrying a MAC but no name,
refuting the claim as stated over all raw inputs. -/
theorem C2_counterexample_nameless_mac :
    ∃ i ∈ parse_ip_config_windows "Physical Address : 00-11-22-33-44-55",
      i.mac.isSome = true ∧ i.name.isSome = false := by
  decide

/-- C2 witness: the amended invariant applied at a concrete well-formed
Windows input. -/
theorem C2_witness_wellformed_input :
    wfWin "Ethernet adapter A:\n   IPv4 Address: 10.0.0.1" = true ∧
    ∀ i ∈ parse_ip_config_windows "Ethernet adapter A:\n   IPv4 Address: 10.0.0.1",
      i.name.isSome = true :=
  ⟨by decide, C2_name_invariant_wellformed.2.1 _ (by decide)⟩

/-- C3 (amended): in the Linux variant an interface name never appears in
the output only when it is never the 2nd field of a line with at least 4
whitespace-separated fields; a name on a well-shaped line with an
unrecognized family tag is still emitted (as a name-only record), because
`setdefault` runs before the family is inspected.  In the BSD variant an
entry with no recorded key at all is not included, but a name-only entry
is. -/
theorem C3_posix_drop_policy :
    (∀ raw ifname : String, linuxNameAbsent raw ifname = true →
      ∀ i ∈ parse_ip_linux raw, i.name ≠ some ifname) ∧
    (∀ raw : String, ∀ i ∈ parse_ip_bsd raw, adapterNonempty i = true) := by
  constructor
  · intro raw ifname habs i hi hcontra
    simp only [parse_ip_linux] at hi
    split at hi
    · simp at hi
    · rcases List.mem_map.mp hi with ⟨q, hq, hqi⟩
      have hn := linuxFold_name (pySplitLines raw) [] (by simp) q hq
      have hkey : q.1 = ifname := by
        rw [← hqi, hn] at hcontra
        exact Option.some.inj hcontra
      rcases linuxFold_keys (pySplitLines raw) [] q hq with hm | ⟨l, hl, hlen, hk2⟩
      · simp at hm
      · simp only [linuxNameAbsent, List.all_eq_true] at habs
        have hline := habs l hl
        simp only [Bool.not_eq_eq_eq_not, Bool.not_true, Bool.and_eq_false_imp,
          decide_eq_true_eq, beq_eq_false_iff_ne] at hline
        exact hline hlen (by rw [← hk2]; exact hkey)
  · intro raw i hi
    simp only [parse_ip_bsd] at hi
    split at hi
    · simp at hi
    · exact flushIf_nonempty _ _
        (bsdFold_nonempty (pySplitLines raw) [] emptyNetIf (by simp)) i hi

/-- C3 counterexample: a Linux line whose family tag is neither `link`,
`inet` nor `inet6` still puts the interface (name-only) into the output,
refuting "never appears in the output". -/
theorem C3_counterexample_unrecognized_family :
    parse_ip_linux "1: eth0 weird 1.2.3.4/24" =
      [{ name := some "eth0", mac := none, ipv4 := [], ipv6 := [] }] := by
  decide

/-- C3 witness: the amended Linux absence property at a concrete input. -/
theorem C3_witness_absent_name :
    linuxNameAbsent "1: lo inet 127.0.0.1/8" "eth9" = true ∧
    ∀ i ∈ parse_ip_linux "1: lo inet 127.0.0.1/8", i.name ≠ some "eth9" :=
  ⟨by decide, C3_posix_drop_policy.1 _ _ (by decide)⟩

/-- C4 (amended): in BOTH POSIX variants the recorded MAC is the last
parseable occurrence.  Linux: a record named `ifname` carries the last MAC
contributed by the family-`link` lines for that name (plain dict
assignment, not `setdefault`).  BSD: for a single interface block the
recorded MAC is the last `ether` match over the header and its indented
lines.  First-match-wins exists only in the Windows parser. -/
theorem C4_mac_last_match_wins :
    (∀ raw ifname : String, ∀ i ∈ parse_ip_linux raw, i.name = some ifname →
      i.mac = (linuxMacsFor raw ifname).getLast?) ∧
    (∀ (hd : String) (rest : List String) (raw : String),
      pySplitLines raw = hd :: rest →
      strStartsWith hd "\t" = false →
      (∀ l ∈ rest, strStartsWith l "\t" = true) →
      ∀ i ∈ parse_ip_bsd raw,
        i.mac = lastOr (rest.filterMap bsdEtherSearch) (bsdEtherSearch hd)) := by
  constructor
  · intro raw ifname i hi hname
    simp only [parse_ip_linux] at hi
    split at hi
    · simp at hi
    · rcases List.mem_map.mp hi with ⟨q, hq, hqi⟩
      have hn := linuxFold_name (pySplitLines raw) [] (by simp) q hq
      have hkey : q.1 = ifname := by
        rw [← hqi, hn] at hname
        exact Option.some.inj hname
      have hnd := linuxFold_keysNodup (pySplitLines raw) [] (by simp)
      have hmk := macOfKey_of_mem _ q hnd hq
      rw [← hqi, ← hmk, hkey, linuxFold_macOfKey, lastOr_eq_getLast?]
      unfold linuxMacsFor
      cases hL : ((pySplitLines raw).filterMap (relevantMac ifname)).getLast? <;>
        simp [hL, macOfKey]
  · intro hd rest raw hsplit hhd hrest i hi
    have hne : ¬(raw == "") = true := by
      intro hc
      rw [beq_iff_eq.mp hc] at hsplit
      simp [pySplitLines, splitLinesAux] at hsplit
    simp only [parse_ip_bsd] at hi
    rw [if_neg hne, hsplit, List.foldl_cons] at hi
    obtain ⟨h1, h2, h3⟩ := bsdStep_unindented [] emptyNetIf hd hhd
    have hres : (rest.foldl bsdStep (bsdStep ([], emptyNetIf) hd)).1 =
        (bsdStep ([], emptyNetIf) hd).1 := by
      have hcst := bsdFold_res_const rest (bsdStep ([], emptyNetIf) hd).1
        (bsdStep ([], emptyNetIf) hd).2 hrest
      rwa [Prod.mk.eta] at hcst
    have hres2 : (bsdStep ([], emptyNetIf) hd).1 = [] := by
      rw [h1]
      rfl
    have hmac : ((rest.foldl bsdStep (bsdStep ([], emptyNetIf) hd)).2).mac =
        lastOr (rest.filterMap bsdEtherSearch) (bsdEtherSearch hd) := by
      have hf := bsdFold_mac rest (bsdStep ([], emptyNetIf) hd).1
        (bsdStep ([], emptyNetIf) hd).2 hrest
      rw [Prod.mk.eta] at hf
      rw [hf, h3]
    rcases mem_flushIf _ _ i hi with hm | heq
    · rw [hres, hres2] at hm
      simp at hm
    · rw [heq]
      exact hmac

/-- C4 counterexample: two family-`link` lines for `eth0`, each with a
parseable MAC; the recorded MAC is the second occurrence, refuting the
claimed Linux first-match-wins behavior. -/
theorem C4_counterexample_linux_not_first_match :
    parse_ip_linux
        "2: eth0 link link/ether aa:aa:aa:aa:aa:aa\n3: eth0 link link/ether bb:bb:bb:bb:bb:bb" =
      [{ name := some "eth0", mac := some "bb:bb:bb:bb:bb:bb",
         ipv4 := [], ipv6 := [] }] := by
  decide

/-- C4 witness: both last-match-wins statements applied at concrete
inputs. -/
theorem C4_witness_last_match :
    (∀ i ∈ parse_ip_linux "5: wlan0 link link/ether 11:22:33:44:55:66",
      i.name = some "wlan0" →
      i.mac = (linuxMacsFor "5: wlan0 link link/ether 11:22:33:44:55:66" "wlan0").getLast?) ∧
    (∀ i ∈ parse_ip_bsd "en0: flags\n\tether aa:bb:cc:dd:ee:01\n\tether aa:bb:cc:dd:ee:02",
      i.mac = lastOr
        (["\tether aa:bb:cc:dd:ee:01", "\tether aa:bb:cc:dd:ee:02"].filterMap bsdEtherSearch)
        (bsdEtherSearch "en0: flags")) :=
  ⟨C4_mac_last_match_wins.1 _ "wlan0",
   C4_mac_last_match_wins.2 "en0: flags"
     ["\tether aa:bb:cc:dd:ee:01", "\tether aa:bb:cc:dd:ee:02"] _
     (by decide) (by decide) (by decide)⟩

/-- C5: the Windows parser on two adapter blocks separated by a blank
line, each with one Physical Address and one IPv4 Address line, returns
exactly two interfaces with their own MACs and one-element IPv4 lists, the
"(Preferred)" annotation stripped; and within one block the first Physical
Address occurrence wins (`setdefault`). -/
theorem C5_windows_two_adapter_blocks :
    parse_ip_config_windows
        "Ethernet adapter Ethernet0:\n   Physical Address: 00-11-22-33-44-55\n   IPv4 Address: 192.168.1.10(Preferred)\n\nEthernet adapter Ethernet1:\n   Physical Address: 66-77-88-99-AA-BB\n   IPv4 Address: 10.0.0.2(Preferred)" =
      [{ name := some "Ethernet adapter Ethernet0", mac := some "00-11-22-33-44-55",
         ipv4 := ["192.168.1.10"], ipv6 := [] },
       { name := some "Ethernet adapter Ethernet1", mac := some "66-77-88-99-AA-BB",
         ipv4 := ["10.0.0.2"], ipv6 := [] }] ∧
    parse_ip_config_windows
        "Ethernet adapter Ethernet0:\n   Physical Address: 00-11-22-33-44-55\n   Physical Address: AA-AA-AA-AA-AA-AA" =
      [{ name := some "Ethernet adapter Ethernet0", mac := some "00-11-22-33-44-55",
         ipv4 := [], ipv6 := [] }] :=
  ⟨by decide, by decide⟩

/-- C6: the classifier returns a sorted, deduplicated list whose members
are exactly the display names hit by an exact lookup of some running
process name; `MsMpEng.exe` normalizes to `msmpeng`, and processes
normalizing to `msmpeng` and `explorer` detect exactly
`["Microsoft Defender"]`. -/
theorem C6_security_classifier :
    (∀ running : List String,
      (detect_security_tools running).Sorted (· < ·) ∧
      (detect_security_tools running).Nodup ∧
      ∀ x, x ∈ detect_security_tools running ↔
        ∃ p ∈ running, dictFind SECURITY_PROCESSES p = some x) ∧
    normWinExe "MsMpEng.exe" = "msmpeng" ∧
    detect_security_tools ["msmpeng", "explorer"] = ["Microsoft Defender"] :=
  ⟨fun running => ⟨detect_sorted running, detect_nodup running, detect_mem running⟩,
   by decide, by decide⟩

/-- C7: the POSIX domain cascade returns the first of the three command
outputs that is non-empty and not a case-insensitive sentinel
(`(none)`/`unknown`), stripped; when all three outputs are empty or
sentinels the result is `none` — never the sentinel, never the empty
string. -/
theorem C7_domain_cascade :
    (∀ o1 o2 o3 : String, get_domain_posix o1 o2 o3 =
      (List.find? domainAccept [o1, o2, o3]).map pyStrip) ∧
    get_domain_posix "(none)" "(NONE)" "unknown" = none := by
  constructor
  · intro o1 o2 o3
    simp only [get_domain_posix, domainLoop]
    cases h1 : domainAccept o1 <;> cases h2 : domainAccept o2 <;>
      cases h3 : domainAccept o3 <;>
      simp [List.find?, h1, h2, h3, domainLoop]
  · decide

/-- C8: with every external fact source held constant, two runs of the
full collector differ only in the `collected_at` timestamp (and an
aborting run aborts identically): the second run's report with its
timestamp replaced equals the first run's report, on every platform. -/
theorem C8_collector_two_run_determinism :
    ∀ (p : PlatformKind) (env : Env) (ts1 ts2 : String),
      gather_host_info p env ts1 =
        Except.map (fun r => { r with collected_at := ts1 })
          (gather_host_info p env ts2) := by
  intro p env ts1 ts2
  unfold gather_host_info
  cases hm : get_memory_info p env with
  | error e => simp [Except.map]
  | ok mem =>
    cases hc : get_cpu_info p env with
    | error e => simp [Except.map]
    | ok cpu => simp [Except.map]

/-- C9: for every platform kind, the network interface parser maps empty
raw command output to the empty interface list (and, being a total
function, raises nothing). -/
theorem C9_empty_input_empty_list :
    ∀ p : PlatformKind, network_parser_for p "" = [] := by
  intro p
  cases p <;> rfl

/-- C10: in the macOS memory collector, a parsed free-page count of zero
leaves the free-memory field absent (`None`) rather than `0` bytes,
because the free value is computed only when the count is non-zero. -/
theorem C10_darwin_zero_pages_free_absent :
    ∀ memsizeOut vmOut : String,
      pagesFreeScan (pySplitLines vmOut) = 0 →
      (get_memory_darwin memsizeOut vmOut).2 = none := by
  intro ms vm h
  simp only [get_memory_darwin]
  by_cases hv : (vm == "") = true
  · simp [hv]
  · simp [hv, h]

/-- C10 witness: a `vm_stat` output reporting `Pages free: 0.` yields an
absent free-memory field. -/
theorem C10_witness_zero_pages :
    pagesFreeScan (pySplitLines
      "Mach Virtual Memory Statistics: (page size of 16384 bytes)\nPages free: 0.") = 0 ∧
    (get_memory_darwin "17179869184"
      "Mach Virtual Memory Statistics: (page size of 16384 bytes)\nPages free: 0.").2 = none :=
  ⟨by decide, C10_darwin_zero_pages_free_absent _ _ (by decide)⟩
